import Mathlib

/-!
Shallow embedding of the numerical convolution engine of the
convolution_visualization_tool repository (src/App.jsx): kernel generation
(`generateFilters`), the activation registry, the sliding-window
convolution (`featureMaps` / `convolve`) and the per-pixel math trace
(`getMathDetails`).  JavaScript numbers are modelled by an arbitrary
linearly ordered commutative ring (the rationals being the intended
instance); input matrices are flat row-major lists, kernels lists of rows.
-/

namespace ConvViz

variable {α : Type} [LinearOrderedCommRing α]

/-- Zero-padded read of the flat row-major input grid: the value at
`(iy, ix)` when both coordinates are inside `[0, gridSize)`, `0` otherwise
(mirrors the bounds test in the convolution loop of `featureMaps`). -/
def inputValue (input : List α) (gridSize : ℕ) (iy ix : ℤ) : α :=
  if 0 ≤ iy ∧ iy < (gridSize : ℤ) ∧ 0 ≤ ix ∧ ix < (gridSize : ℤ) then
    input.getD (iy * gridSize + ix).toNat 0
  else 0

/-- `filter.kernel[ky][kx]` with JavaScript-style defaulting. -/
def kernelAt (kernel : List (List α)) (ky kx : ℕ) : α :=
  (kernel.getD ky []).getD kx 0

/-- Row-major enumeration of the kernel coordinates, the iteration order of
the nested `for (ky) for (kx)` loops. -/
def kernelPairs (kSize : ℕ) : List (ℕ × ℕ) :=
  (List.range kSize).flatMap fun ky => (List.range kSize).map fun kx => (ky, kx)

/-- `outDim = Math.floor((gridSize + 2*padding - kSize) / stride) + 1`. -/
def outDimZ (gridSize kSize stride padding : ℕ) : ℤ :=
  Int.fdiv ((gridSize : ℤ) + 2 * (padding : ℤ) - (kSize : ℤ)) (stride : ℤ) + 1

/-- The pre-activation accumulator of the convolution inner loops:
`sum += inputVal * weight` over the row-major kernel coordinates. -/
def cellSum (input : List α) (gridSize : ℕ) (kernel : List (List α))
    (stride padding x y : ℕ) : α :=
  ((kernelPairs kernel.length).map fun q =>
    inputValue input gridSize ((y : ℤ) * stride - padding + q.1)
        ((x : ℤ) * stride - padding + q.2)
      * kernelAt kernel q.1 q.2).sum

/-- Result record of one convolution: `{ name, data, dim }`. -/
structure FeatureMap (α : Type) where
  name : String
  data : List α
  dim : ℕ
deriving DecidableEq

/-- One kernel's pass of the `featureMaps` computation: compute `outDim`,
return an empty map when `outDim <= 0`, otherwise fill the row-major
output array with the activated window sums. -/
def convolve (input : List α) (gridSize : ℕ) (name : String)
    (kernel : List (List α)) (stride padding : ℕ) (act : α → α) :
    FeatureMap α :=
  let kSize := kernel.length
  let outDim := outDimZ gridSize kSize stride padding
  if outDim ≤ 0 then ⟨name, [], 0⟩
  else
    let n := outDim.toNat
    ⟨name,
      (List.range n).flatMap fun y => (List.range n).map fun x =>
        act (cellSum input gridSize kernel stride padding x y),
      n⟩

/-- `ACTIVATIONS.relu`. -/
def relu (x : α) : α := max 0 x

/-- `ACTIVATIONS.none` (the identity). -/
def actNone (x : α) : α := x

/-- Horizontal Edge kernel of `generateFilters`: `-1` above and below the
center row, `2` on it. -/
def horiz (kSize : ℕ) : List (List α) :=
  let center := kSize / 2
  (List.range kSize).map fun y => (List.range kSize).map fun _x =>
    if y < center then -1 else if center < y then -1 else 2

/-- Vertical Edge kernel of `generateFilters`: `-1` left and right of the
center column, `2` on it. -/
def vert (kSize : ℕ) : List (List α) :=
  let center := kSize / 2
  (List.range kSize).map fun _y => (List.range kSize).map fun x =>
    if x < center then -1 else if center < x then -1 else 2

/-- Single-cell assignment `m[y][x] = v` on a list-of-rows matrix. -/
def set2 (m : List (List α)) (y x : ℕ) (v : α) : List (List α) :=
  m.set y ((m.getD y []).set x v)

/-- The all-zero `kSize × kSize` matrix (`Array(kSize).fill(0)` rows). -/
def zeros (kSize : ℕ) : List (List α) :=
  List.replicate kSize (List.replicate kSize 0)

/-- Sharpen kernel of `generateFilters`: zeros, center set to `5` for size 3
and `9` otherwise, and for size 3 the four orthogonal neighbours of the
center set to `-1`. -/
def sharpen (kSize : ℕ) : List (List α) :=
  let center := kSize / 2
  let base := set2 (zeros kSize) center center (if kSize = 3 then 5 else 9)
  if kSize = 3 then
    set2 (set2 (set2 (set2 base 0 1 (-1)) 1 0 (-1)) 1 2 (-1)) 2 1 (-1)
  else base

/-- Emboss kernel of `generateFilters`: the literal 3×3 matrix for size 3,
otherwise zeros with center `1`. -/
def emboss (kSize : ℕ) : List (List α) :=
  let center := kSize / 2
  if kSize = 3 then
    [[-2, -1, 0], [-1, 1, 1], [0, 1, 2]]
  else set2 (zeros kSize) center center 1

/-- A named kernel, one entry of the object returned by `generateFilters`. -/
structure NamedFilter (α : Type) where
  name : String
  kernel : List (List α)
deriving DecidableEq

/-- `generateFilters(kSize)`, in the insertion order of the returned object
(the order `Object.values` yields). -/
def generateFilters (kSize : ℕ) : List (NamedFilter α) :=
  [⟨"Horizontal Edge", horiz kSize⟩, ⟨"Vertical Edge", vert kSize⟩,
   ⟨"Sharpen", sharpen kSize⟩, ⟨"Emboss (3x3)", emboss kSize⟩]

/-- The whole `featureMaps` computation: one `convolve` per filter. -/
def featureMaps (input : List α) (gridSize : ℕ) (filters : List (NamedFilter α))
    (stride padding : ℕ) (act : α → α) : List (FeatureMap α) :=
  filters.map fun f => convolve input gridSize f.name f.kernel stride padding act

/-- One recorded term of the math trace: `{ val, weight, product, isPadding }`. -/
structure CalcTerm (α : Type) where
  val : α
  weight : α
  product : α
  isPadding : Bool
deriving DecidableEq

/-- The record returned by `getMathDetails`. -/
structure MathDetails (α : Type) where
  calculations : List (CalcTerm α)
  total : α
  activated : α
  filterName : String
deriving DecidableEq

/-- Body of the `getMathDetails` loop at kernel coordinate `q`: always add
the product into the running total, and push the term onto `calculations`
only when `gridSize <= 14 || product !== 0`. -/
def traceStep (input : List α) (gridSize : ℕ) (kernel : List (List α))
    (stride padding x y : ℕ) (acc : List (CalcTerm α) × α) (q : ℕ × ℕ) :
    List (CalcTerm α) × α :=
  let iy : ℤ := (y : ℤ) * stride - padding + q.1
  let ix : ℤ := (x : ℤ) * stride - padding + q.2
  let val : α :=
    if 0 ≤ iy ∧ iy < (gridSize : ℤ) ∧ 0 ≤ ix ∧ ix < (gridSize : ℤ) then
      input.getD (iy * gridSize + ix).toNat 0
    else 0
  let isPadding : Bool :=
    ! decide (0 ≤ iy ∧ iy < (gridSize : ℤ) ∧ 0 ≤ ix ∧ ix < (gridSize : ℤ))
  let weight := kernelAt kernel q.1 q.2
  let product := val * weight
  (if gridSize ≤ 14 ∨ product ≠ 0 then
      acc.1 ++ [⟨val, weight, product, isPadding⟩]
    else acc.1,
    acc.2 + product)

/-- `getMathDetails` for one output coordinate `(x, y)` of one filter. -/
def getMathDetails (input : List α) (gridSize : ℕ) (kernel : List (List α))
    (stride padding : ℕ) (act : α → α) (filterName : String) (x y : ℕ) :
    MathDetails α :=
  let kSize := kernel.length
  let r := (kernelPairs kSize).foldl
    (traceStep input gridSize kernel stride padding x y) ([], 0)
  ⟨r.1, r.2, act r.2, filterName⟩

/-- The term the trace loop would record at kernel coordinate `q`,
expressed through the engine's own `inputValue` lookup. -/
def stepTerm (input : List α) (gridSize : ℕ) (kernel : List (List α))
    (stride padding x y : ℕ) (q : ℕ × ℕ) : CalcTerm α :=
  let iy : ℤ := (y : ℤ) * stride - padding + q.1
  let ix : ℤ := (x : ℤ) * stride - padding + q.2
  ⟨inputValue input gridSize iy ix, kernelAt kernel q.1 q.2,
   inputValue input gridSize iy ix * kernelAt kernel q.1 q.2,
   ! decide (0 ≤ iy ∧ iy < (gridSize : ℤ) ∧ 0 ≤ ix ∧ ix < (gridSize : ℤ))⟩

/-- Total weight of a kernel: the sum of all its entries. -/
def weightSum (kernel : List (List α)) : α :=
  (kernel.map List.sum).sum

/-! ### Helper lemmas -/

lemma sum_map_range {M : Type} [AddCommMonoid M] (f : ℕ → M) :
    ∀ n, ((List.range n).map f).sum = ∑ i ∈ Finset.range n, f i := by
  intro n
  induction n with
  | zero => simp
  | succ k ih =>
    rw [List.range_succ, List.map_append, List.sum_append, Finset.sum_range_succ, ih]
    simp

lemma map_range_getD {β : Type} (g : ℕ → β) (d : β) (n x : ℕ) (hx : x < n) :
    ((List.range n).map g).getD x d = g x := by
  rw [List.getD_eq_getElem _ _ (by simpa using hx)]
  simp

lemma flatMap_sum {β γ : Type} [AddCommMonoid γ] (l : List β) (g : β → List γ) :
    (l.flatMap g).sum = (l.map fun a => (g a).sum).sum := by
  induction l with
  | nil => simp
  | cons a t ih => simp [ih]

lemma kernelPairs_sum {M : Type} [AddCommMonoid M] (k : ℕ) (f : ℕ × ℕ → M) :
    ((kernelPairs k).map f).sum
      = ∑ ky ∈ Finset.range k, ∑ kx ∈ Finset.range k, f (ky, kx) := by
  unfold kernelPairs
  rw [List.map_flatMap, flatMap_sum, sum_map_range]
  refine Finset.sum_congr rfl fun ky _ => ?_
  rw [List.map_map]
  simpa [Function.comp] using sum_map_range (fun kx => f (ky, kx)) k

lemma flatMap_range_length {β : Type} (F : ℕ → List β) (m : ℕ)
    (hF : ∀ y, (F y).length = m) :
    ∀ n, ((List.range n).flatMap F).length = n * m := by
  intro n
  induction n with
  | zero => simp
  | succ k ih =>
    rw [List.range_succ, List.flatMap_append, List.length_append, ih]
    simp [hF, Nat.succ_mul]

lemma kernelPairs_length (k : ℕ) : (kernelPairs k).length = k * k :=
  flatMap_range_length _ k (fun _ => by simp) k

lemma flatMap_range_getD {β : Type} (d : β) (m : ℕ) (F : ℕ → List β)
    (hF : ∀ y, (F y).length = m) :
    ∀ n y x, y < n → x < m →
      ((List.range n).flatMap F).getD (y * m + x) d = (F y).getD x d := by
  intro n
  induction n with
  | zero => intro y x hy _; exact absurd hy (Nat.not_lt_zero y)
  | succ k ih =>
    intro y x hy hx
    rcases Nat.lt_succ_iff_lt_or_eq.mp hy with h | h
    · rw [List.range_succ, List.flatMap_append,
        List.getD_append _ _ _ _ (by
          rw [flatMap_range_length F m hF]
          have : (y + 1) * m ≤ k * m := Nat.mul_le_mul_right m h
          calc y * m + x < y * m + m := by omega
            _ = (y + 1) * m := by ring
            _ ≤ k * m := this)]
      exact ih y x h hx
    · subst h
      rw [List.range_succ, List.flatMap_append,
        List.getD_append_right _ _ _ _ (by
          rw [flatMap_range_length F m hF]; omega)]
      rw [flatMap_range_length F m hF]
      simp [Nat.add_sub_cancel_left]

lemma outDim_pos_of_lt_toNat {gs k s p y : ℕ}
    (h : y < (outDimZ gs k s p).toNat) : 0 < outDimZ gs k s p := by
  by_contra hle
  push_neg at hle
  rw [Int.toNat_of_nonpos hle] at h
  exact absurd h (Nat.not_lt_zero y)

lemma convolve_data_getD (input : List α) (gs : ℕ) (nm : String)
    (kernel : List (List α)) (s p : ℕ) (act : α → α) (x y : ℕ)
    (hy : y < (outDimZ gs kernel.length s p).toNat)
    (hx : x < (outDimZ gs kernel.length s p).toNat) :
    (convolve input gs nm kernel s p act).data.getD
        (y * (outDimZ gs kernel.length s p).toNat + x) 0
      = act (cellSum input gs kernel s p x y) := by
  have hpos := outDim_pos_of_lt_toNat hy
  simp only [convolve]
  rw [if_neg (by omega)]
  simp only []
  rw [flatMap_range_getD _ _ _ (fun _ => by simp) _ y x hy hx,
    map_range_getD _ _ _ x hx]

lemma traceStep_eq (input : List α) (gs : ℕ) (kernel : List (List α))
    (s p x y : ℕ) (acc : List (CalcTerm α) × α) (q : ℕ × ℕ) :
    traceStep input gs kernel s p x y acc q
      = ((if gs ≤ 14 ∨ (stepTerm input gs kernel s p x y q).product ≠ 0 then
            acc.1 ++ [stepTerm input gs kernel s p x y q]
          else acc.1),
         acc.2 + (stepTerm input gs kernel s p x y q).product) := rfl

lemma trace_foldl_total (input : List α) (gs : ℕ) (kernel : List (List α))
    (s p x y : ℕ) :
    ∀ (l : List (ℕ × ℕ)) (cs : List (CalcTerm α)) (t : α),
      (l.foldl (traceStep input gs kernel s p x y) (cs, t)).2
        = t + (l.map fun q => (stepTerm input gs kernel s p x y q).product).sum := by
  intro l
  induction l with
  | nil => intro cs t; simp
  | cons q tl ih =>
    intro cs t
    rw [List.foldl_cons, traceStep_eq, ih]
    simp [add_assoc]

lemma trace_foldl_calcs (input : List α) (gs : ℕ) (kernel : List (List α))
    (s p x y : ℕ) :
    ∀ (l : List (ℕ × ℕ)) (cs : List (CalcTerm α)) (t : α),
      (l.foldl (traceStep input gs kernel s p x y) (cs, t)).1
        = cs ++ ((l.map (stepTerm input gs kernel s p x y)).filter
            fun c => decide (gs ≤ 14 ∨ c.product ≠ 0)) := by
  intro l
  induction l with
  | nil => intro cs t; simp
  | cons q tl ih =>
    intro cs t
    rw [List.foldl_cons, traceStep_eq, ih]
    by_cases h : gs ≤ 14 ∨ (stepTerm input gs kernel s p x y q).product ≠ 0
    · rw [if_pos h]
      simp [List.filter_cons, h]
    · rw [if_neg h]
      simp [List.filter_cons, h]

lemma getMathDetails_total (input : List α) (gs : ℕ) (kernel : List (List α))
    (s p : ℕ) (act : α → α) (nm : String) (x y : ℕ) :
    (getMathDetails input gs kernel s p act nm x y).total
      = ((kernelPairs kernel.length).map
          fun q => (stepTerm input gs kernel s p x y q).product).sum := by
  simp only [getMathDetails]
  rw [trace_foldl_total]
  simp

lemma getMathDetails_activated (input : List α) (gs : ℕ)
    (kernel : List (List α)) (s p : ℕ) (act : α → α) (nm : String) (x y : ℕ) :
    (getMathDetails input gs kernel s p act nm x y).activated
      = act ((getMathDetails input gs kernel s p act nm x y).total) := rfl

lemma getMathDetails_calcs (input : List α) (gs : ℕ) (kernel : List (List α))
    (s p : ℕ) (act : α → α) (nm : String) (x y : ℕ) :
    (getMathDetails input gs kernel s p act nm x y).calculations
      = ((kernelPairs kernel.length).map (stepTerm input gs kernel s p x y)).filter
          fun c => decide (gs ≤ 14 ∨ c.product ≠ 0) := by
  simp only [getMathDetails]
  rw [trace_foldl_calcs]
  simp

lemma getMathDetails_total_eq_cellSum (input : List α) (gs : ℕ)
    (kernel : List (List α)) (s p : ℕ) (act : α → α) (nm : String) (x y : ℕ) :
    (getMathDetails input gs kernel s p act nm x y).total
      = cellSum input gs kernel s p x y := by
  rw [getMathDetails_total]
  rfl

/-! ### Claim theorems -/

/-- C1: for every square input, kernel, stride ≥ 1, padding and in-range
output coordinate `(ox, oy)`, the convolution output at row-major index
`oy * outDim + ox` is the activation of the double sum of zero-padded
input reads times kernel weights (unflipped cross-correlation). -/
theorem C1_convolve_cell (input : List α) (gs : ℕ) (nm : String)
    (kernel : List (List α)) (s p : ℕ) (act : α → α) (ox oy : ℕ)
    (_hs : 1 ≤ s)
    (hy : oy < (outDimZ gs kernel.length s p).toNat)
    (hx : ox < (outDimZ gs kernel.length s p).toNat) :
    (convolve input gs nm kernel s p act).data.getD
        (oy * (outDimZ gs kernel.length s p).toNat + ox) 0
      = act (∑ ky ∈ Finset.range kernel.length, ∑ kx ∈ Finset.range kernel.length,
          inputValue input gs ((oy : ℤ) * s - p + ky) ((ox : ℤ) * s - p + kx)
            * kernelAt kernel ky kx) := by
  rw [convolve_data_getD input gs nm kernel s p act ox oy hy hx]
  congr 1
  rw [cellSum, kernelPairs_sum]

/-- C1 witness: a 3×3 all-ones input under the 3×3 Horizontal Edge kernel,
stride 1, padding 0, no activation: the single formula instance holds and
both sides evaluate to 0. -/
theorem C1_witness :
    (convolve (List.replicate 9 (1 : ℤ)) 3 "Horizontal Edge" (horiz 3) 1 0
        actNone).data.getD
      (0 * (outDimZ 3 (horiz (α := ℤ) 3).length 1 0).toNat + 0) 0 = 0 := by
  rw [C1_convolve_cell (List.replicate 9 (1 : ℤ)) 3 "Horizontal Edge"
    (horiz 3) 1 0 actNone 0 0 (by decide) (by decide) (by decide)]
  decide

/-- C2: the output dimension is `floor((gridSize + 2*padding - kSize)/stride) + 1`;
a positive value yields a FeatureMap of that dimension with `outDim * outDim`
data entries, a non-positive one yields the valid empty FeatureMap. -/
theorem C2_outDim (input : List α) (gs : ℕ) (nm : String)
    (kernel : List (List α)) (s p : ℕ) (act : α → α) (_hs : 1 ≤ s) :
    (0 < outDimZ gs kernel.length s p →
      (convolve input gs nm kernel s p act).dim
          = (outDimZ gs kernel.length s p).toNat
      ∧ (convolve input gs nm kernel s p act).data.length
          = (outDimZ gs kernel.length s p).toNat
              * (outDimZ gs kernel.length s p).toNat)
    ∧ (outDimZ gs kernel.length s p ≤ 0 →
      (convolve input gs nm kernel s p act).dim = 0
      ∧ (convolve input gs nm kernel s p act).data = []) := by
  constructor
  · intro hpos
    simp only [convolve]
    rw [if_neg (by omega)]
    exact ⟨rfl, flatMap_range_length _ _ (fun _ => by simp) _⟩
  · intro hle
    simp only [convolve]
    rw [if_pos hle]
    exact ⟨rfl, rfl⟩

/-- C2 witness: for a 3×3 input with a 3×3 kernel at stride 1 and padding 0
the output dimension is 1 and the data has one entry; a 5×5 kernel on the
same input at padding 0 with stride 3 gives a degenerate empty map. -/
theorem C2_witness :
    (convolve (List.replicate 9 (1 : ℤ)) 3 "Horizontal Edge" (horiz 3) 1 0
        actNone).data.length = 1
    ∧ (convolve (List.replicate 4 (1 : ℤ)) 2 "Horizontal Edge" (horiz 5) 1 0
        actNone).data = [] := by
  constructor
  · have h := (C2_outDim (List.replicate 9 (1 : ℤ)) 3 "Horizontal Edge"
      (horiz 3) 1 0 actNone (by decide)).1 (by decide)
    rw [h.2]
    decide
  · exact ((C2_outDim (List.replicate 4 (1 : ℤ)) 2 "Horizontal Edge"
      (horiz 5) 1 0 actNone (by decide)).2 (by decide)).2

/-- C3: the trace builder's `total` equals the pre-activation window sum of
the convolution engine, and its activated value equals the feature-map
entry at the same coordinate. -/
theorem C3_trace_matches_convolve (input : List α) (gs : ℕ) (nm : String)
    (kernel : List (List α)) (s p : ℕ) (act : α → α) (x y : ℕ) (_hs : 1 ≤ s)
    (hy : y < (outDimZ gs kernel.length s p).toNat)
    (hx : x < (outDimZ gs kernel.length s p).toNat) :
    (getMathDetails input gs kernel s p act nm x y).total
      = cellSum input gs kernel s p x y
    ∧ (getMathDetails input gs kernel s p act nm x y).activated
      = (convolve input gs nm kernel s p act).data.getD
          (y * (outDimZ gs kernel.length s p).toNat + x) 0 := by
  refine ⟨getMathDetails_total_eq_cellSum input gs kernel s p act nm x y, ?_⟩
  rw [convolve_data_getD input gs nm kernel s p act x y hy hx,
    getMathDetails_activated, getMathDetails_total_eq_cellSum]

/-- C3 witness: on the 3×3 all-ones input with the 3×3 Sharpen kernel the
trace total is the pre-activation sum 1 and the activated value matches
the feature-map entry. -/
theorem C3_witness :
    (getMathDetails (List.replicate 9 (1 : ℤ)) 3 (sharpen 3) 1 0 actNone
        "Sharpen" 0 0).total = cellSum (List.replicate 9 (1 : ℤ)) 3 (sharpen 3) 1 0 0 0
    ∧ (getMathDetails (List.replicate 9 (1 : ℤ)) 3 (sharpen 3) 1 0 actNone
        "Sharpen" 0 0).activated
      = (convolve (List.replicate 9 (1 : ℤ)) 3 "Sharpen" (sharpen 3) 1 0
          actNone).data.getD
          (0 * (outDimZ 3 (sharpen (α := ℤ) 3).length 1 0).toNat + 0) 0 :=
  C3_trace_matches_convolve (List.replicate 9 (1 : ℤ)) 3 "Sharpen" (sharpen 3)
    1 0 actNone 0 0 (by decide) (by decide) (by decide)

/-- C9: the trace's reported `total` is the sum of the products over all
`kSize * kSize` kernel coordinates, independently of the condition that
filters which terms get recorded, and the activated value is the
activation of that total. -/
theorem C9_total_unfiltered (input : List α) (gs : ℕ) (kernel : List (List α))
    (s p : ℕ) (act : α → α) (nm : String) (x y : ℕ) :
    (getMathDetails input gs kernel s p act nm x y).total
      = ((kernelPairs kernel.length).map
          fun q => (stepTerm input gs kernel s p x y q).product).sum
    ∧ ((kernelPairs kernel.length).map
          fun q => (stepTerm input gs kernel s p x y q).product).length
        = kernel.length * kernel.length
    ∧ (getMathDetails input gs kernel s p act nm x y).activated
      = act ((getMathDetails input gs kernel s p act nm x y).total) :=
  ⟨getMathDetails_total input gs kernel s p act nm x y,
   by rw [List.length_map, kernelPairs_length],
   getMathDetails_activated input gs kernel s p act nm x y⟩

/-- C10: with the `relu` activation every entry of the produced feature map
is non-negative. -/
theorem C10_relu_nonneg (input : List α) (gs : ℕ) (nm : String)
    (kernel : List (List α)) (s p : ℕ) (_hs : 1 ≤ s) :
    ∀ v ∈ (convolve input gs nm kernel s p relu).data, 0 ≤ v := by
  intro v hv
  simp only [convolve] at hv
  by_cases h : outDimZ gs kernel.length s p ≤ 0
  · rw [if_pos h] at hv
    simp at hv
  · rw [if_neg h] at hv
    simp only [List.mem_flatMap, List.mem_map] at hv
    obtain ⟨a, -, b, -, rfl⟩ := hv
    exact le_max_left 0 _

/-- C10 witness: on the 3×3 all-ones input with the Horizontal Edge kernel
and relu, the value 0 is an entry of the feature map and is non-negative. -/
theorem C10_witness :
    (0 : ℤ) ∈ (convolve (List.replicate 9 (1 : ℤ)) 3 "Horizontal Edge"
        (horiz 3) 1 0 relu).data
    ∧ (0 : ℤ) ≤ 0 :=
  ⟨by decide,
   C10_relu_nonneg (List.replicate 9 (1 : ℤ)) 3 "Horizontal Edge" (horiz 3)
     1 0 (by decide) 0 (by decide)⟩

/-- C4 counterexample: on a 15×15 all-zero input with the 3×3 Horizontal
Edge kernel, stride 1, padding 0, the coordinate (0,0) is valid but the
trace records 0 terms instead of `kSize * kSize = 9`, because for
`gridSize > 14` terms with zero product are not pushed. -/
theorem C4_counterexample :
    0 < outDimZ 15 (horiz (α := ℤ) 3).length 1 0
    ∧ (getMathDetails (List.replicate 225 (0 : ℤ)) 15 (horiz 3) 1 0 actNone
        "Horizontal Edge" 0 0).calculations.length = 0
    ∧ (horiz (α := ℤ) 3).length * (horiz (α := ℤ) 3).length = 9 := by
  decide

/-- C4 (amended): when `gridSize ≤ 14` the trace's `calculations` list is
exactly the row-major sequence of the `kSize * kSize` kernel-cell terms,
each carrying the zero-padded input value, the kernel weight, their
product and the out-of-bounds flag. -/
theorem C4_trace_terms (input : List α) (gs : ℕ) (kernel : List (List α))
    (s p : ℕ) (act : α → α) (nm : String) (x y : ℕ) (hgs : gs ≤ 14) :
    (getMathDetails input gs kernel s p act nm x y).calculations
      = (kernelPairs kernel.length).map (stepTerm input gs kernel s p x y)
    ∧ (getMathDetails input gs kernel s p act nm x y).calculations.length
      = kernel.length * kernel.length := by
  have h : (getMathDetails input gs kernel s p act nm x y).calculations
      = (kernelPairs kernel.length).map (stepTerm input gs kernel s p x y) := by
    rw [getMathDetails_calcs]
    refine List.filter_eq_self.mpr fun a _ => ?_
    simp [hgs]
  exact ⟨h, by rw [h, List.length_map, kernelPairs_length]⟩

/-- C4 witness: the nine trace terms of the Sharpen kernel at (0,0) on the
3×3 all-ones input. -/
theorem C4_witness :
    (getMathDetails (List.replicate 9 (1 : ℤ)) 3 (sharpen 3) 1 0 actNone
        "Sharpen" 0 0).calculations
      = (kernelPairs (sharpen (α := ℤ) 3).length).map
          (stepTerm (List.replicate 9 (1 : ℤ)) 3 (sharpen 3) 1 0 0 0)
    ∧ (getMathDetails (List.replicate 9 (1 : ℤ)) 3 (sharpen 3) 1 0 actNone
        "Sharpen" 0 0).calculations.length
      = (sharpen (α := ℤ) 3).length * (sharpen (α := ℤ) 3).length :=
  C4_trace_terms (List.replicate 9 (1 : ℤ)) 3 (sharpen 3) 1 0 actNone
    "Sharpen" 0 0 (by decide)

/-- C5: for the generated sizes 3 and 5 the Horizontal Edge kernel has 2 on
every cell of the center row and -1 elsewhere, and the Vertical Edge
kernel has 2 on every cell of the center column and -1 elsewhere. -/
theorem C5_edge_kernels (k y x : ℕ) (hk : k = 3 ∨ k = 5)
    (hy : y < k) (hx : x < k) :
    kernelAt (horiz (α := α) k) y x = (if y = k / 2 then 2 else -1)
    ∧ kernelAt (vert (α := α) k) y x = (if x = k / 2 then 2 else -1) := by
  rcases hk with rfl | rfl <;> interval_cases y <;> interval_cases x <;>
    exact ⟨rfl, rfl⟩

/-- C5 witness: at size 3, cell (1,0) of the Horizontal Edge kernel is on
the center row and cell (1,0) of the Vertical Edge kernel is off the
center column. -/
theorem C5_witness :
    kernelAt (horiz (α := ℤ) 3) 1 0 = (if 1 = 3 / 2 then 2 else -1)
    ∧ kernelAt (vert (α := ℤ) 3) 1 0 = (if 0 = 3 / 2 then 2 else -1) :=
  C5_edge_kernels 3 1 0 (Or.inl rfl) (by decide) (by decide)

/-- C6: for the generated sizes 3 and 5 the Sharpen kernel is zero except
for the center cell (5 at size 3, 9 otherwise) and, at size 3 only, the
four orthogonal neighbours of the center, which are -1. -/
theorem C6_sharpen_kernel (k y x : ℕ) (hk : k = 3 ∨ k = 5)
    (hy : y < k) (hx : x < k) :
    kernelAt (sharpen (α := α) k) y x
      = if y = k / 2 ∧ x = k / 2 then (if k = 3 then 5 else 9)
        else if k = 3 ∧ ((y, x) = (0, 1) ∨ (y, x) = (1, 0) ∨ (y, x) = (1, 2)
            ∨ (y, x) = (2, 1)) then -1
        else 0 := by
  rcases hk with rfl | rfl <;> interval_cases y <;> interval_cases x <;> rfl

/-- C6 witness: the center of the size-3 Sharpen kernel. -/
theorem C6_witness :
    kernelAt (sharpen (α := ℤ) 3) 1 1
      = if 1 = 3 / 2 ∧ 1 = 3 / 2 then (if 3 = 3 then 5 else 9)
        else if 3 = 3 ∧ (((1 : ℕ), (1 : ℕ)) = (0, 1) ∨ ((1 : ℕ), (1 : ℕ)) = (1, 0)
            ∨ ((1 : ℕ), (1 : ℕ)) = (1, 2) ∨ ((1 : ℕ), (1 : ℕ)) = (2, 1)) then -1
        else 0 :=
  C6_sharpen_kernel 3 1 1 (Or.inl rfl) (by decide) (by decide)

/-- C7: the size-3 Emboss kernel is the fixed literal matrix; for the other
generated size it is zero except for a 1 at the center; and the generated
filter bank always has exactly the four named kernels. -/
theorem C7_emboss_and_bank (k : ℕ) (hk : k = 3 ∨ k = 5) :
    (k = 3 → emboss (α := α) k = [[-2, -1, 0], [-1, 1, 1], [0, 1, 2]])
    ∧ (k ≠ 3 → ∀ y < k, ∀ x < k,
        kernelAt (emboss (α := α) k) y x
          = if y = k / 2 ∧ x = k / 2 then 1 else 0)
    ∧ (generateFilters (α := α) k).length = 4
    ∧ (generateFilters (α := α) k).map NamedFilter.name
      = ["Horizontal Edge", "Vertical Edge", "Sharpen", "Emboss (3x3)"] := by
  rcases hk with rfl | rfl
  · exact ⟨fun _ => rfl, fun h => absurd rfl h, rfl, rfl⟩
  · refine ⟨fun h => absurd h (by decide), fun _ y hy x hx => ?_, rfl, rfl⟩
    interval_cases y <;> interval_cases x <;> rfl

/-- C7 witness: instantiation at size 5. -/
theorem C7_witness :
    (5 = 3 → emboss (α := ℤ) 5 = [[-2, -1, 0], [-1, 1, 1], [0, 1, 2]])
    ∧ (5 ≠ 3 → ∀ y < 5, ∀ x < 5,
        kernelAt (emboss (α := ℤ) 5) y x
          = if y = 5 / 2 ∧ x = 5 / 2 then 1 else 0)
    ∧ (generateFilters (α := ℤ) 5).length = 4
    ∧ (generateFilters (α := ℤ) 5).map NamedFilter.name
      = ["Horizontal Edge", "Vertical Edge", "Sharpen", "Emboss (3x3)"] :=
  C7_emboss_and_bank 5 (Or.inr rfl)

/-- For a valid output row and a kernel row offset, the window read with
padding 0 stays strictly below the grid bound. -/
lemma window_in_bounds {gs k s : ℕ} (hs : 1 ≤ s) {y ky : ℕ}
    (hy : y < (outDimZ gs k s 0).toNat) (hky : ky < k) :
    (y : ℤ) * s + ky < (gs : ℤ) := by
  have hs' : (0 : ℤ) < s := by exact_mod_cast hs
  have hod : outDimZ gs k s 0 = ((gs : ℤ) - k) / s + 1 := by
    simp [outDimZ, Int.fdiv_eq_ediv _ (le_of_lt hs')]
  rw [hod] at hy
  have hy' : (y : ℤ) < ((gs : ℤ) - k) / s + 1 := Int.lt_toNat.mp hy
  have hle : (y : ℤ) ≤ ((gs : ℤ) - k) / s := by omega
  have hmul : (y : ℤ) * s ≤ (((gs : ℤ) - k) / s) * s :=
    mul_le_mul_of_nonneg_right hle (le_of_lt hs')
  have hdm := Int.ediv_add_emod ((gs : ℤ) - k) s
  have hmn := Int.emod_nonneg ((gs : ℤ) - k) (ne_of_gt hs')
  have hky' : (ky : ℤ) < k := by exact_mod_cast hky
  have hcomm : (((gs : ℤ) - k) / s) * s = s * (((gs : ℤ) - k) / s) := mul_comm _ _
  linarith

/-- Reading a constant grid inside the bounds yields the constant. -/
lemma inputValue_replicate_const (gs : ℕ) (c : α) {n1 n2 : ℕ}
    (h1 : n1 < gs) (h2 : n2 < gs) :
    inputValue (List.replicate (gs * gs) c) gs (n1 : ℤ) (n2 : ℤ) = c := by
  rw [inputValue, if_pos
    ⟨by positivity, by exact_mod_cast h1, by positivity, by exact_mod_cast h2⟩]
  have hcast : ((n1 : ℤ) * gs + n2) = ((n1 * gs + n2 : ℕ) : ℤ) := by
    push_cast; ring
  rw [hcast, Int.toNat_ofNat]
  rw [List.getD_eq_getElem _ _ (by
    rw [List.length_replicate]
    have h3 : (n1 + 1) * gs ≤ gs * gs := by
      rw [mul_comm gs gs]
      exact Nat.mul_le_mul_right gs (by omega)
    calc n1 * gs + n2 < n1 * gs + gs := by omega
      _ = (n1 + 1) * gs := by ring
      _ ≤ gs * gs := h3)]
  exact List.getElem_replicate c _

lemma range_map_getD {β : Type} (d : β) (l : List β) :
    (List.range l.length).map (fun i => l.getD i d) = l := by
  induction l with
  | nil => simp
  | cons a t ih =>
    rw [List.length_cons, List.range_succ_eq_map, List.map_cons, List.map_map]
    simp only [List.getD_cons_zero, Function.comp_def, List.getD_cons_succ]
    rw [ih]

lemma sum_getD_row (row : List α) :
    ∑ kx ∈ Finset.range row.length, row.getD kx 0 = row.sum := by
  rw [← sum_map_range (fun kx => row.getD kx 0) row.length, range_map_getD]

/-- Summing `kernel[ky][kx]` over all in-range coordinates of a square
kernel gives the total weight. -/
lemma sum_kernelAt (kernel : List (List α))
    (hrow : ∀ row ∈ kernel, row.length = kernel.length) :
    (∑ ky ∈ Finset.range kernel.length, ∑ kx ∈ Finset.range kernel.length,
        kernelAt kernel ky kx) = weightSum kernel := by
  have hky : ∀ ky ∈ Finset.range kernel.length,
      (∑ kx ∈ Finset.range kernel.length, kernelAt kernel ky kx)
        = (kernel.getD ky []).sum := by
    intro ky hmem
    rw [Finset.mem_range] at hmem
    have hrowmem : kernel.getD ky [] ∈ kernel := by
      rw [List.getD_eq_getElem _ _ hmem]
      exact List.getElem_mem hmem
    have hlen : (kernel.getD ky []).length = kernel.length := hrow _ hrowmem
    rw [← hlen]
    simpa [kernelAt] using sum_getD_row (kernel.getD ky [])
  rw [Finset.sum_congr rfl hky, weightSum]
  have hmap : kernel.map List.sum
      = (List.range kernel.length).map (fun i => (kernel.getD i []).sum) := by
    conv_lhs => rw [← range_map_getD ([] : List α) kernel]
    rw [List.map_map]
    rfl
  rw [hmap, sum_map_range]

/-- On a constant input with padding 0, every window sum is the constant
times the kernel's total weight. -/
lemma cellSum_const (gs : ℕ) (c : α) (kernel : List (List α)) (s : ℕ)
    (hs : 1 ≤ s) (hrow : ∀ row ∈ kernel, row.length = kernel.length)
    {x y : ℕ} (hy : y < (outDimZ gs kernel.length s 0).toNat)
    (hx : x < (outDimZ gs kernel.length s 0).toNat) :
    cellSum (List.replicate (gs * gs) c) gs kernel s 0 x y
      = c * weightSum kernel := by
  rw [cellSum, kernelPairs_sum]
  have hterm : ∀ ky ∈ Finset.range kernel.length,
      ∀ kx ∈ Finset.range kernel.length,
      inputValue (List.replicate (gs * gs) c) gs
          ((y : ℤ) * s - (0 : ℕ) + ky) ((x : ℤ) * s - (0 : ℕ) + kx)
        * kernelAt kernel ky kx
      = c * kernelAt kernel ky kx := by
    intro ky hky kx hkx
    rw [Finset.mem_range] at hky hkx
    have h1 : (y : ℤ) * s + ky < gs := window_in_bounds hs hy hky
    have h2 : (x : ℤ) * s + kx < gs := window_in_bounds hs hx hkx
    have e1 : (y : ℤ) * s - (0 : ℕ) + ky = ((y * s + ky : ℕ) : ℤ) := by
      push_cast; ring
    have e2 : (x : ℤ) * s - (0 : ℕ) + kx = ((x * s + kx : ℕ) : ℤ) := by
      push_cast; ring
    have h1' : y * s + ky < gs := by exact_mod_cast h1
    have h2' : x * s + kx < gs := by exact_mod_cast h2
    rw [e1, e2, inputValue_replicate_const gs c h1' h2']
  calc (∑ ky ∈ Finset.range kernel.length, ∑ kx ∈ Finset.range kernel.length,
        inputValue (List.replicate (gs * gs) c) gs
            ((y : ℤ) * s - (0 : ℕ) + ky) ((x : ℤ) * s - (0 : ℕ) + kx)
          * kernelAt kernel ky kx)
      = ∑ ky ∈ Finset.range kernel.length, ∑ kx ∈ Finset.range kernel.length,
          c * kernelAt kernel ky kx := by
        refine Finset.sum_congr rfl fun ky hky => ?_
        exact Finset.sum_congr rfl fun kx hkx => hterm ky hky kx hkx
    _ = c * weightSum kernel := by
        rw [← sum_kernelAt kernel hrow, Finset.mul_sum]
        exact Finset.sum_congr rfl fun ky _ => (Finset.mul_sum _ _ _).symm

/-- C8 counterexample: the claim fails once padding is nonzero.  With the
zero-sum 3×3 Horizontal Edge kernel on a constant 3×3 input of ones,
stride 1 and padding 1, activation none, the corner output is 2, not 0. -/
theorem C8_counterexample :
    weightSum (horiz (α := ℤ) 3) = 0
    ∧ (convolve (List.replicate 9 (1 : ℤ)) 3 "Horizontal Edge" (horiz 3) 1 1
        actNone).data.getD 0 0 ≠ 0 := by
  decide

/-- C8 (amended): with padding 0, a constant input and any square kernel
whose weights sum to zero, convolve with activation none yields an
all-zero feature map. -/
theorem C8_zero_sum_const (gs : ℕ) (c : α) (nm : String)
    (kernel : List (List α)) (s : ℕ) (hs : 1 ≤ s)
    (hrow : ∀ row ∈ kernel, row.length = kernel.length)
    (hsum : weightSum kernel = 0) :
    (convolve (List.replicate (gs * gs) c) gs nm kernel s 0 actNone).data
      = List.replicate ((outDimZ gs kernel.length s 0).toNat
          * (outDimZ gs kernel.length s 0).toNat) 0 := by
  by_cases h : outDimZ gs kernel.length s 0 ≤ 0
  · simp [convolve, if_pos h, Int.toNat_of_nonpos h]
  · rw [List.eq_replicate_iff]
    refine ⟨?_, ?_⟩
    · simp only [convolve]
      rw [if_neg h]
      exact flatMap_range_length _ _ (fun _ => by simp) _
    · intro b hb
      simp only [convolve] at hb
      rw [if_neg h] at hb
      simp only [List.mem_flatMap, List.mem_map, List.mem_range] at hb
      obtain ⟨yy, hyy, xx, hxx, hbe⟩ := hb
      rw [← hbe, actNone, cellSum_const gs c kernel s hs hrow hyy hxx, hsum,
        mul_zero]

/-- C8 witness: the 3×3 Horizontal Edge kernel has zero total weight and on
the all-ones 3×3 input with stride 1 and padding 0 produces the all-zero
1×1 feature map. -/
theorem C8_witness :
    (convolve (List.replicate (3 * 3) (1 : ℤ)) 3 "Horizontal Edge" (horiz 3)
        1 0 actNone).data
      = List.replicate ((outDimZ 3 (horiz (α := ℤ) 3).length 1 0).toNat
          * (outDimZ 3 (horiz (α := ℤ) 3).length 1 0).toNat) 0 :=
  C8_zero_sum_const 3 1 "Horizontal Edge" (horiz 3) 1 (by decide) (by decide)
    (by decide)

/-- Sanity: the concrete scenario of the specification, a 3×3 all-ones
input under the size-3 Sharpen kernel with stride 1, padding 0 and no
activation, yields the single-cell feature map `[1]`. -/
theorem sanity_sharpen_single_cell :
    (convolve (List.replicate 9 (1 : ℤ)) 3 "Sharpen" (sharpen 3) 1 0
        actNone).data = [1]
    ∧ (getMathDetails (List.replicate 9 (1 : ℤ)) 3 (sharpen 3) 1 0 actNone
        "Sharpen" 0 0).total = 1
    ∧ (getMathDetails (List.replicate 9 (1 : ℤ)) 3 (sharpen 3) 1 0 actNone
        "Sharpen" 0 0).calculations.length = 9 := by
  decide

/-- Sanity: the generated kernels at their concrete sizes. -/
theorem sanity_kernel_values :
    kernelAt (horiz 3) 1 1 = (2 : ℤ)
    ∧ kernelAt (vert 3) 0 1 = (2 : ℤ)
    ∧ kernelAt (sharpen 3) 1 1 = (5 : ℤ)
    ∧ kernelAt (sharpen 5) 2 2 = (9 : ℤ)
    ∧ kernelAt (emboss 5) 2 2 = (1 : ℤ)
    ∧ outDimZ 3 3 1 0 = 1 := by
  decide

end ConvViz
